import Mathlib

set_option maxRecDepth 8000

/-!
Shallow embedding of the palette-codec core of the `gpltoact` repository
(`src/GUI.py` and `src/main.py`): the GPL text reader `parse_gpl_file`,
the GPL writer `return_gimp_palette`, the ACT binary writer
`create_act_file` and the ACT reader `parse_adobe_act`.

Text is modelled as `List Char`, binary data as `List Nat` (one entry per
byte), colors as `Nat × Nat × Nat` triples.  Reading a file line by line
and stripping each line is modelled by splitting on the newline character
and stripping; a raised exception in the ACT reader is modelled by
`Option.none`.
-/

namespace GplAct

/-- Python whitespace, for `str.strip()` and the regex `\s`: the full set of
code points accepted by CPython's `Py_UNICODE_ISSPACE` (both `str.isspace`
and `\s` on `str` patterns test exactly this predicate). -/
def pyIsSpace (c : Char) : Bool :=
  decide ((9 ≤ c.toNat ∧ c.toNat ≤ 13) ∨ (28 ≤ c.toNat ∧ c.toNat ≤ 31) ∨
    c.toNat = 32 ∨ c.toNat = 133 ∨ c.toNat = 160 ∨ c.toNat = 5760 ∨
    (8192 ≤ c.toNat ∧ c.toNat ≤ 8202) ∨ c.toNat = 8232 ∨ c.toNat = 8233 ∨
    c.toNat = 8239 ∨ c.toNat = 8287 ∨ c.toNat = 12288)

/-- ASCII decimal digit test.  On ASCII text this coincides with Python's
`str.isdigit` (and `int()` succeeds exactly on such tokens); Python also
accepts non-ASCII Unicode digits, so theorems whose truth depends on this
predicate over arbitrary text carry an ASCII hypothesis. -/
def isDig (c : Char) : Bool :=
  decide (48 ≤ c.toNat ∧ c.toNat ≤ 57)

/-- Python `tok.isdigit()`: a non-empty all-digit token. -/
def isDigitTok (t : List Char) : Bool :=
  !t.isEmpty && t.all isDig

/-- Python `str.strip()`: drop whitespace at both ends. -/
def pyStrip (l : List Char) : List Char :=
  ((l.dropWhile pyIsSpace).reverse.dropWhile pyIsSpace).reverse

/-- Split a text on the newline character, as iterating over the lines of a
file (the terminator itself is consumed).  Python's text mode additionally
translates a bare carriage return or a carriage-return/newline pair into a
single newline before the lines are produced; on carriage-return-free text
(the GPL writer emits none, and the idempotence theorem restricts its name
and columns likewise) that translation is the identity and splitting on the
newline character alone is exact. -/
def splitLines : List Char → List (List Char)
  | [] => [[]]
  | c :: rest =>
    if c = '\n' then [] :: splitLines rest
    else
      match splitLines rest with
      | [] => [[c]]
      | l :: ls => (c :: l) :: ls

/-- Accumulator worker for `re.split` on runs of whitespace. -/
def splitWsAux : List Char → List Char → List (List Char)
  | [], acc => if acc.isEmpty then [] else [acc.reverse]
  | c :: rest, acc =>
    if pyIsSpace c then
      if acc.isEmpty then splitWsAux rest []
      else acc.reverse :: splitWsAux rest []
    else splitWsAux rest (c :: acc)

/-- Python `re.split(r'\s+', s)` on an already-stripped string: the maximal
runs of non-whitespace characters, in order. -/
def splitWs (l : List Char) : List (List Char) :=
  splitWsAux l []

/-- Decimal value of a digit token, as Python `int(tok)`. -/
def decVal (t : List Char) : Nat :=
  t.foldl (fun a c => 10 * a + (c.toNat - 48)) 0

/-- Python `max(0, min(255, x))` on a parsed (non-negative) value. -/
def clamp (x : Nat) : Nat := max 0 (min 255 x)

/-- One iteration of the GPL reader loop body on a single line: strip, skip
blank and `#` lines, keep the first three digit-only tokens as a clamped
color when at least three are present, drop the line otherwise. -/
def processLine (line : List Char) : Option (Nat × Nat × Nat) :=
  let l := pyStrip line
  if l.isEmpty then none
  else if l.head? = some '#' then none
  else
    match ((((splitWs l).filter isDigitTok).map decVal).take 3) with
    | [r, g, b] => some (clamp r, clamp g, clamp b)
    | _ => none

/-- `parse_gpl_file` of `src/GUI.py` / `src/main.py`, on the file content:
harvest the successfully parsed colors of the data lines, in file order. -/
def parse_gpl_file (content : List Char) : List (Nat × Nat × Nat) :=
  (splitLines content).filterMap processLine

/-- Character for a decimal digit `d < 10`. -/
def dchar (d : Nat) : Char := Char.ofNat (48 + d)

/-- Fuel-driven decimal rendering worker (most significant digit first). -/
def natToDecAux : Nat → Nat → List Char → List Char
  | 0, _, acc => acc
  | fuel + 1, n, acc =>
    if n < 10 then dchar n :: acc
    else natToDecAux fuel (n / 10) (dchar (n % 10) :: acc)

/-- Decimal rendering of a natural number, as Python `'{0}'.format(n)`. -/
def natToDec (n : Nat) : List Char :=
  natToDecAux (n + 1) n []

/-- One color line of the GPL writer: `'{0} {1} {2}\tUntitled'.format(*color)`. -/
def colorLine (c : Nat × Nat × Nat) : List Char :=
  natToDec c.1 ++ " ".toList ++ natToDec c.2.1 ++ " ".toList ++
    natToDec c.2.2 ++ "\tUntitled".toList

/-- Python `'\n'.join`. -/
def joinNl : List (List Char) → List Char
  | [] => []
  | [l] => l
  | l :: ls => l ++ '\n' :: joinNl ls

/-- `return_gimp_palette` of `src/GUI.py`: the full GPL text
`'GIMP Palette\nName: {name}\nColumns: {columns}\n#\n{colors}\n'` with the
color lines joined by newlines.  The rendered `columns` value is passed as
text, like `name`. -/
def return_gimp_palette (colors : List (Nat × Nat × Nat))
    (name columns : List Char) : List Char :=
  "GIMP Palette\nName: ".toList ++ name ++ "\nColumns: ".toList ++ columns ++
    "\n#\n".toList ++ joinNl (colors.map colorLine) ++ "\n".toList

/-- Python `pack('3B', r, g, b)` on byte-sized channels. -/
def actTriple (c : Nat × Nat × Nat) : List Nat :=
  [c.1, c.2.1, c.2.2]

/-- Python `pack('>H', n)`: big-endian 16-bit value. -/
def packBE16 (n : Nat) : List Nat :=
  [n / 256 % 256, n % 256]

/-- `create_act_file` of `src/GUI.py` / `src/main.py`, producing the output
bytes: the first 256 colors, black padding driven by `range(256 - len)`
(empty when the count exceeds 256), and the CS2 trailing count exactly when
`0 < len < 256`. -/
def create_act_file (colors : List (Nat × Nat × Nat)) : List Nat :=
  (colors.take 256).flatMap actTriple ++
    (List.replicate (256 - colors.length) ((0, 0, 0) : Nat × Nat × Nat)).flatMap actTriple ++
    (if 0 < colors.length ∧ colors.length < 256 then packBE16 colors.length else [])

/-- The ACT reader loop `[unpack('3B', file.read(3)) for i in range(nbcolors)]`:
read `n` consecutive byte triples; `none` models the `struct.error` raised
when fewer than three bytes remain. -/
def readColors : Nat → List Nat → Option (List (Nat × Nat × Nat))
  | 0, _ => some []
  | n + 1, r :: g :: b :: rest => (readColors n rest).map (fun cs => (r, g, b) :: cs)
  | _ + 1, _ => none

/-- `parse_adobe_act` of `src/GUI.py`, on the file bytes: a 772-byte file
takes its color count from the big-endian 16-bit field at offset 768, any
other size implies `size / 3`; then the triples are read from offset 0. -/
def parse_adobe_act (data : List Nat) : Option (List (Nat × Nat × Nat)) :=
  let nbcolors :=
    if data.length = 772 then 256 * data.getD 768 0 + data.getD 769 0
    else data.length / 3
  readColors nbcolors data

/-! Lemmas about decimal rendering. -/

theorem natToDecAux_irrel (f : Nat) : ∀ g n acc, n < f → n < g →
    natToDecAux f n acc = natToDecAux g n acc := by
  induction f with
  | zero => intro g n acc h; omega
  | succ f ih =>
    intro g n acc hf hg
    cases g with
    | zero => omega
    | succ g =>
      by_cases h10 : n < 10
      · simp [natToDecAux, h10]
      · have hdiv : n / 10 < n := Nat.div_lt_self (by omega) (by omega)
        simp only [natToDecAux, if_neg h10]
        exact ih g (n / 10) _ (by omega) (by omega)

theorem natToDecAux_acc (f : Nat) : ∀ n acc, n < f →
    natToDecAux f n acc = natToDecAux f n [] ++ acc := by
  induction f with
  | zero => intro n acc h; omega
  | succ f ih =>
    intro n acc hf
    by_cases h10 : n < 10
    · simp [natToDecAux, h10]
    · have hdiv : n / 10 < n := Nat.div_lt_self (by omega) (by omega)
      simp only [natToDecAux, if_neg h10]
      rw [ih (n / 10) _ (by omega), ih (n / 10) [dchar (n % 10)] (by omega),
        List.append_assoc]
      rfl

theorem natToDec_step (n : Nat) :
    natToDec n = if n < 10 then [dchar n] else natToDec (n / 10) ++ [dchar (n % 10)] := by
  by_cases h10 : n < 10
  · simp [natToDec, natToDecAux, h10]
  · have hdiv : n / 10 < n := Nat.div_lt_self (by omega) (by omega)
    rw [if_neg h10,
      show natToDec n = natToDecAux n (n / 10) [dchar (n % 10)] by
        simp [natToDec, natToDecAux, h10],
      natToDecAux_acc n (n / 10) _ (by omega),
      natToDecAux_irrel n (n / 10 + 1) (n / 10) [] (by omega) (by omega)]
    rfl

theorem natToDec_ne_nil (n : Nat) : natToDec n ≠ [] := by
  rw [natToDec_step]
  by_cases h10 : n < 10 <;> simp [h10]

theorem isDig_dchar (d : Nat) (h : d < 10) : isDig (dchar d) = true := by
  interval_cases d <;> decide

theorem toNat_dchar (d : Nat) (h : d < 10) : (dchar d).toNat = 48 + d := by
  interval_cases d <;> decide

theorem natToDec_digits (n : Nat) : ∀ c ∈ natToDec n, isDig c = true := by
  induction n using Nat.strong_induction_on with
  | _ n ih =>
    rw [natToDec_step]
    by_cases h10 : n < 10
    · simp only [if_pos h10, List.mem_singleton]
      rintro c rfl
      exact isDig_dchar n h10
    · have hdiv : n / 10 < n := Nat.div_lt_self (by omega) (by omega)
      simp only [if_neg h10, List.mem_append, List.mem_singleton]
      rintro c (hc | rfl)
      · exact ih (n / 10) hdiv c hc
      · exact isDig_dchar (n % 10) (Nat.mod_lt n (by omega))

theorem decVal_natToDec (n : Nat) : decVal (natToDec n) = n := by
  induction n using Nat.strong_induction_on with
  | _ n ih =>
    rw [natToDec_step]
    by_cases h10 : n < 10
    · simp [if_pos h10, decVal, toNat_dchar n h10]
    · have hdiv : n / 10 < n := Nat.div_lt_self (by omega) (by omega)
      simp only [if_neg h10, decVal, List.foldl_append, List.foldl_cons, List.foldl_nil]
      have := ih (n / 10) hdiv
      simp only [decVal] at this
      rw [this, toNat_dchar (n % 10) (Nat.mod_lt n (by omega))]
      omega

/-! Character-class facts. -/

theorem isDig_not_space (c : Char) (h : isDig c = true) : pyIsSpace c = false := by
  simp only [isDig, decide_eq_true_eq] at h
  simp only [pyIsSpace, decide_eq_false_iff_not]
  omega

theorem isDig_ne_hash (c : Char) (h : isDig c = true) : c ≠ '#' := by
  rintro rfl; exact absurd h (by decide)

theorem isDig_ne_nl (c : Char) (h : isDig c = true) : c ≠ '\n' := by
  rintro rfl; exact absurd h (by decide)

/-! Lemmas about stripping and splitting. -/

theorem dropWhile_head (p : Char → Bool) (m : List Char)
    (h : ∀ c, m.head? = some c → p c = false) : m.dropWhile p = m := by
  cases m with
  | nil => rfl
  | cons c t => simp [List.dropWhile_cons, h c rfl]

theorem pyStrip_eq_self (l : List Char)
    (h1 : ∀ c, l.head? = some c → pyIsSpace c = false)
    (h2 : ∀ c, l.getLast? = some c → pyIsSpace c = false) : pyStrip l = l := by
  unfold pyStrip
  rw [dropWhile_head _ l h1, dropWhile_head _ l.reverse
    (fun c hc => h2 c (by rwa [List.head?_reverse] at hc)), List.reverse_reverse]

theorem splitLines_ne_nil (l : List Char) : splitLines l ≠ [] := by
  cases l with
  | nil => simp [splitLines]
  | cons c rest =>
    simp only [splitLines]
    by_cases h : c = '\n'
    · simp [h]
    · simp only [if_neg h]
      cases hsl : splitLines rest <;> simp

theorem splitLines_append (a rest : List Char) (ha : '\n' ∉ a) :
    splitLines (a ++ '\n' :: rest) = a :: splitLines rest := by
  induction a with
  | nil => simp [splitLines]
  | cons c a ih =>
    have hc : ¬c = '\n' := fun h => ha (h ▸ List.mem_cons_self c a)
    have ha' : '\n' ∉ a := fun h => ha (List.mem_cons_of_mem _ h)
    simp only [List.cons_append, splitLines, if_neg hc]
    rw [List.append_eq, ih ha']

theorem splitWsAux_nonspace (t : List Char) : ∀ rest acc,
    (∀ c ∈ t, pyIsSpace c = false) →
    splitWsAux (t ++ rest) acc = splitWsAux rest (t.reverse ++ acc) := by
  induction t with
  | nil => simp
  | cons c t ih =>
    intro rest acc h
    have hc := h c (List.mem_cons_self c t)
    simp only [List.cons_append, splitWsAux, hc, Bool.false_eq_true, if_false]
    rw [List.append_eq, ih rest (c :: acc) (fun d hd => h d (List.mem_cons_of_mem _ hd))]
    simp

theorem splitWsAux_space (c : Char) (rest : List Char) (x : Char) (xs : List Char)
    (hc : pyIsSpace c = true) :
    splitWsAux (c :: rest) (x :: xs) = (x :: xs).reverse :: splitWsAux rest [] := by
  simp [splitWsAux, hc]

theorem splitWs_sep (t rest : List Char) (sep : Char)
    (ht : ∀ c ∈ t, pyIsSpace c = false) (hn : t ≠ []) (hsep : pyIsSpace sep = true) :
    splitWs (t ++ sep :: rest) = t :: splitWs rest := by
  obtain ⟨x, xs, rfl⟩ : ∃ x xs, t = x :: xs := by
    cases t with
    | nil => exact absurd rfl hn
    | cons x xs => exact ⟨x, xs, rfl⟩
  rw [splitWs, splitWsAux_nonspace _ _ _ ht, List.append_nil]
  obtain ⟨y, ys, hy⟩ : ∃ y ys, (x :: xs).reverse = y :: ys := by
    cases hrev : (x :: xs).reverse with
    | nil => exact absurd hrev (by simp)
    | cons y ys => exact ⟨y, ys, rfl⟩
  rw [hy, splitWsAux_space _ _ _ _ hsep, ← hy, List.reverse_reverse]
  rfl

theorem splitWs_last (t : List Char)
    (ht : ∀ c ∈ t, pyIsSpace c = false) (hn : t ≠ []) :
    splitWs t = [t] := by
  obtain ⟨x, xs, rfl⟩ : ∃ x xs, t = x :: xs := by
    cases t with
    | nil => exact absurd rfl hn
    | cons x xs => exact ⟨x, xs, rfl⟩
  rw [splitWs, ← List.append_nil (x :: xs), splitWsAux_nonspace _ _ _ ht]
  obtain ⟨y, ys, hy⟩ : ∃ y ys, (x :: xs).reverse = y :: ys := by
    cases hrev : (x :: xs).reverse with
    | nil => exact absurd hrev (by simp)
    | cons y ys => exact ⟨y, ys, rfl⟩
  rw [List.append_nil, hy, splitWsAux, ← hy, List.reverse_reverse]
  simp

/-! The GPL writer's color lines parse back to their colors. -/

theorem natToDec_head_dig (n : Nat) : ∃ d t, natToDec n = d :: t ∧ isDig d = true := by
  cases h : natToDec n with
  | nil => exact absurd h (natToDec_ne_nil n)
  | cons d t => exact ⟨d, t, rfl, natToDec_digits n d (h ▸ List.mem_cons_self d t)⟩

theorem colorLine_eq (r g b : Nat) :
    colorLine (r, g, b) =
      natToDec r ++ ' ' :: (natToDec g ++ ' ' :: (natToDec b ++ '\t' :: "Untitled".toList)) := by
  show natToDec r ++ " ".toList ++ natToDec g ++ " ".toList ++
    natToDec b ++ "\tUntitled".toList = _
  rw [show " ".toList = [' '] from rfl,
    show "\tUntitled".toList = '\t' :: "Untitled".toList from rfl]
  simp only [List.append_assoc, List.singleton_append, List.cons_append, List.nil_append]

theorem colorLine_no_nl (r g b : Nat) : '\n' ∉ colorLine (r, g, b) := by
  rw [colorLine_eq]
  intro hmem
  simp only [List.mem_append, List.mem_cons] at hmem
  rcases hmem with h | h | h | h | h | h | h
  · exact absurd (natToDec_digits r _ h) (by decide)
  · exact absurd h (by decide)
  · exact absurd (natToDec_digits g _ h) (by decide)
  · exact absurd h (by decide)
  · exact absurd (natToDec_digits b _ h) (by decide)
  · exact absurd h (by decide)
  · exact absurd h (by decide)

theorem isDigitTok_natToDec (n : Nat) : isDigitTok (natToDec n) = true := by
  obtain ⟨d, t, h, _⟩ := natToDec_head_dig n
  have h1 : (natToDec n).isEmpty = false := by rw [h]; rfl
  have h2 : (natToDec n).all isDig = true := List.all_eq_true.mpr (natToDec_digits n)
  simp [isDigitTok, h1, h2]

theorem splitWs_colorLine (r g b : Nat) :
    splitWs (colorLine (r, g, b)) =
      [natToDec r, natToDec g, natToDec b, "Untitled".toList] := by
  have hns : ∀ n : Nat, ∀ c ∈ natToDec n, pyIsSpace c = false :=
    fun n c hc => isDig_not_space c (natToDec_digits n c hc)
  rw [colorLine_eq,
    splitWs_sep _ _ ' ' (hns r) (natToDec_ne_nil r) (by decide),
    splitWs_sep _ _ ' ' (hns g) (natToDec_ne_nil g) (by decide),
    splitWs_sep _ _ '\t' (hns b) (natToDec_ne_nil b) (by decide),
    splitWs_last _ (by decide) (by decide)]

theorem processLine_colorLine (r g b : Nat)
    (hr : r ≤ 255) (hg : g ≤ 255) (hb : b ≤ 255) :
    processLine (colorLine (r, g, b)) = some (r, g, b) := by
  obtain ⟨d1, t1, e1, hd1⟩ := natToDec_head_dig r
  have hcons : colorLine (r, g, b) =
      d1 :: (t1 ++ ' ' :: (natToDec g ++ ' ' :: (natToDec b ++ '\t' :: "Untitled".toList))) := by
    rw [colorLine_eq, e1]; rfl
  have hhead : ∀ c, (colorLine (r, g, b)).head? = some c → pyIsSpace c = false := by
    rw [hcons]
    intro c hc
    simp only [List.head?_cons, Option.some.injEq] at hc
    exact hc ▸ isDig_not_space d1 hd1
  have e2 : colorLine (r, g, b) =
      (natToDec r ++ " ".toList ++ natToDec g ++ " ".toList ++
        natToDec b ++ "\tUntitle".toList) ++ ['d'] := by
    show natToDec r ++ " ".toList ++ natToDec g ++ " ".toList ++
      natToDec b ++ "\tUntitled".toList = _
    rw [show "\tUntitled".toList = "\tUntitle".toList ++ ['d'] from rfl]
    simp only [List.append_assoc]
  have hlast : ∀ c, (colorLine (r, g, b)).getLast? = some c → pyIsSpace c = false := by
    intro c hc
    rw [e2, List.getLast?_concat] at hc
    injection hc with hcd
    rw [← hcd]
    decide
  have hstrip : pyStrip (colorLine (r, g, b)) = colorLine (r, g, b) :=
    pyStrip_eq_self _ hhead hlast
  have hempty : (colorLine (r, g, b)).isEmpty = false := by rw [hcons]; rfl
  have hhash : ¬(colorLine (r, g, b)).head? = some '#' := by
    rw [hcons]
    simp only [List.head?_cons, Option.some.injEq]
    exact isDig_ne_hash d1 hd1
  simp only [processLine, hstrip, hempty, Bool.false_eq_true, if_false, if_neg hhash,
    splitWs_colorLine]
  have hu : isDigitTok "Untitled".toList = false := by decide
  have hfil : List.filter isDigitTok
      [natToDec r, natToDec g, natToDec b, "Untitled".toList] =
      [natToDec r, natToDec g, natToDec b] := by
    simp only [List.filter_cons, List.filter_nil, isDigitTok_natToDec, hu]
    simp
  rw [hfil]
  simp only [List.map_cons, List.map_nil, decVal_natToDec, List.take]
  have hcl : ∀ x : Nat, x ≤ 255 → clamp x = x := by
    intro x hx
    simp only [clamp]
    omega
  rw [hcl r hr, hcl g hg, hcl b hb]

theorem filterMap_colorLines (colors : List (Nat × Nat × Nat))
    (h : ∀ c ∈ colors, c.1 ≤ 255 ∧ c.2.1 ≤ 255 ∧ c.2.2 ≤ 255) :
    (colors.map colorLine).filterMap processLine = colors := by
  induction colors with
  | nil => rfl
  | cons c cs ih =>
    obtain ⟨r, g, b⟩ := c
    obtain ⟨hr, hg, hb⟩ := h (r, g, b) (List.mem_cons_self _ _)
    simp only [List.map_cons, List.filterMap_cons, processLine_colorLine r g b hr hg hb]
    rw [ih (fun d hd => h d (List.mem_cons_of_mem _ hd))]

/-! Parsing the writer's own output. -/

theorem filterMap_splitLines_joinNl (ls : List (List Char)) (h : ∀ l ∈ ls, '\n' ∉ l) :
    (splitLines (joinNl ls ++ ['\n'])).filterMap processLine = ls.filterMap processLine := by
  induction ls with
  | nil =>
    show (splitLines ['\n']).filterMap processLine = []
    decide
  | cons l ls ih =>
    cases ls with
    | nil =>
      show (splitLines (l ++ '\n' :: [])).filterMap processLine = _
      rw [splitLines_append l [] (h l (List.mem_cons_self l []))]
      show (l :: [[]]).filterMap processLine = _
      rw [List.filterMap_cons, List.filterMap_cons]
      cases hpl : processLine l <;>
        simp [hpl, show processLine [] = none from by decide, List.filterMap_cons,
          List.filterMap_nil]
    | cons l2 ls2 =>
      have hstep : (l ++ '\n' :: joinNl (l2 :: ls2)) ++ ['\n'] =
          l ++ '\n' :: (joinNl (l2 :: ls2) ++ ['\n']) := by
        simp [List.append_assoc]
      show (splitLines ((l ++ '\n' :: joinNl (l2 :: ls2)) ++ ['\n'])).filterMap processLine = _
      rw [hstep, splitLines_append l _ (h l (List.mem_cons_self l _)), List.filterMap_cons,
        List.filterMap_cons]
      have ih' := ih (fun m hm => h m (List.mem_cons_of_mem _ hm))
      cases hpl : processLine l <;> simp [hpl, ih']

theorem parse_write (colors : List (Nat × Nat × Nat)) (name cols : List Char)
    (hcol : ∀ c ∈ colors, c.1 ≤ 255 ∧ c.2.1 ≤ 255 ∧ c.2.2 ≤ 255)
    (hn : '\n' ∉ name) (hc : '\n' ∉ cols)
    (h4 : processLine ("Name: ".toList ++ name) = none)
    (h5 : processLine ("Columns: ".toList ++ cols) = none) :
    parse_gpl_file (return_gimp_palette colors name cols) = colors := by
  have htext : return_gimp_palette colors name cols =
      "GIMP Palette".toList ++ '\n' :: (("Name: ".toList ++ name) ++ '\n' ::
        (("Columns: ".toList ++ cols) ++ '\n' :: (['#'] ++ '\n' ::
          (joinNl (colors.map colorLine) ++ ['\n'])))) := by
    show "GIMP Palette\nName: ".toList ++ name ++ "\nColumns: ".toList ++ cols ++
      "\n#\n".toList ++ joinNl (colors.map colorLine) ++ "\n".toList = _
    rw [show "GIMP Palette\nName: ".toList =
        "GIMP Palette".toList ++ '\n' :: "Name: ".toList from rfl,
      show "\nColumns: ".toList = '\n' :: "Columns: ".toList from rfl,
      show "\n#\n".toList = '\n' :: '#' :: '\n' :: [] from rfl,
      show "\n".toList = ['\n'] from rfl]
    simp only [List.append_assoc, List.cons_append, List.nil_append, List.singleton_append]
  have hnm : '\n' ∉ "Name: ".toList ++ name := by
    intro hmem
    rcases List.mem_append.mp hmem with hmm | hmm
    · exact absurd hmm (by decide)
    · exact hn hmm
  have hcm : '\n' ∉ "Columns: ".toList ++ cols := by
    intro hmem
    rcases List.mem_append.mp hmem with hmm | hmm
    · exact absurd hmm (by decide)
    · exact hc hmm
  have hcls : ∀ l ∈ colors.map colorLine, '\n' ∉ l := by
    intro l hl
    obtain ⟨c, _, rfl⟩ := List.mem_map.mp hl
    obtain ⟨r, g, b⟩ := c
    exact colorLine_no_nl r g b
  rw [parse_gpl_file, htext,
    splitLines_append _ _ (by decide),
    splitLines_append _ _ hnm,
    splitLines_append _ _ hcm,
    splitLines_append _ _ (by decide),
    List.filterMap_cons, List.filterMap_cons, List.filterMap_cons, List.filterMap_cons]
  rw [show processLine "GIMP Palette".toList = none from by decide, h4, h5,
    show processLine ['#'] = none from by decide,
    filterMap_splitLines_joinNl _ hcls]
  exact filterMap_colorLines colors hcol

/-! Lemmas about the ACT writer and reader. -/

theorem flat3_length (ts : List (Nat × Nat × Nat)) :
    (ts.flatMap actTriple).length = 3 * ts.length := by
  induction ts with
  | nil => rfl
  | cons c ts ih =>
    simp only [List.flatMap_cons, actTriple, List.length_append, List.length_cons,
      List.length_nil, ih]
    omega

theorem readColors_flat (ts : List (Nat × Nat × Nat)) (rest : List Nat) :
    readColors ts.length (ts.flatMap actTriple ++ rest) = some ts := by
  induction ts with
  | nil => rfl
  | cons c ts ih =>
    obtain ⟨r, g, b⟩ := c
    show readColors (ts.length + 1)
      (r :: g :: b :: (ts.flatMap actTriple ++ rest)) = some ((r, g, b) :: ts)
    rw [readColors, ih]
    rfl

theorem readColors_short (n : Nat) : ∀ l : List Nat, l.length < 3 * n →
    readColors n l = none := by
  induction n with
  | zero => intro l h; omega
  | succ n ih =>
    intro l h
    match l with
    | [] => rfl
    | [a] => rfl
    | [a, b] => rfl
    | a :: b :: c :: rest =>
      rw [readColors, ih rest (by simp at h ⊢; omega)]
      rfl

theorem readColors_spec (n : Nat) : ∀ l : List Nat, 3 * n ≤ l.length →
    ∃ cs, readColors n l = some cs ∧ cs.length = n ∧
      ∀ i, i < n → cs.getD i (0, 0, 0) =
        (l.getD (3 * i) 0, l.getD (3 * i + 1) 0, l.getD (3 * i + 2) 0) := by
  induction n with
  | zero => exact fun l _ => ⟨[], rfl, rfl, fun i hi => absurd hi (by omega)⟩
  | succ n ih =>
    intro l h
    match l with
    | [] => simp at h
    | [a] => simp at h; omega
    | [a, b] => simp at h; omega
    | a :: b :: c :: rest =>
      obtain ⟨cs, hcs, hlen, hget⟩ := ih rest (by simp at h ⊢; omega)
      refine ⟨(a, b, c) :: cs, ?_, by simp [hlen], ?_⟩
      · rw [readColors, hcs]; rfl
      · intro i hi
        cases i with
        | zero => rfl
        | succ i =>
          have e0 : (a :: b :: c :: rest).getD (3 * (i + 1)) 0 = rest.getD (3 * i) 0 := by
            rw [show 3 * (i + 1) = 3 * i + 1 + 1 + 1 from by ring,
              List.getD_cons_succ, List.getD_cons_succ, List.getD_cons_succ]
          have e1 : (a :: b :: c :: rest).getD (3 * (i + 1) + 1) 0 =
              rest.getD (3 * i + 1) 0 := by
            rw [show 3 * (i + 1) + 1 = 3 * i + 1 + 1 + 1 + 1 from by ring,
              List.getD_cons_succ, List.getD_cons_succ, List.getD_cons_succ]
          have e2 : (a :: b :: c :: rest).getD (3 * (i + 1) + 2) 0 =
              rest.getD (3 * i + 2) 0 := by
            rw [show 3 * (i + 1) + 2 = 3 * i + 2 + 1 + 1 + 1 from by ring,
              List.getD_cons_succ, List.getD_cons_succ, List.getD_cons_succ]
          rw [e0, e1, e2, List.getD_cons_succ]
          exact hget i (by omega)

theorem readColors_mem (n : Nat) : ∀ l cs, readColors n l = some cs →
    ∀ c ∈ cs, c.1 ∈ l ∧ c.2.1 ∈ l ∧ c.2.2 ∈ l := by
  induction n with
  | zero =>
    intro l cs h c hc
    rw [readColors] at h
    cases h
    simp at hc
  | succ n ih =>
    intro l cs h c hc
    match l with
    | [] => exact Option.noConfusion h
    | [a] => exact Option.noConfusion h
    | [a, b] => exact Option.noConfusion h
    | a :: b :: d :: rest =>
      rw [readColors] at h
      cases hr : readColors n rest with
      | none => rw [hr] at h; cases h
      | some cs' =>
        rw [hr] at h
        cases h
        rcases List.mem_cons.mp hc with rfl | hc'
        · exact ⟨by simp, by simp, by simp⟩
        · obtain ⟨h1, h2, h3⟩ := ih rest cs' hr c hc'
          exact ⟨by simp [h1], by simp [h2], by simp [h3]⟩

theorem act_write_read (colors : List (Nat × Nat × Nat))
    (h1 : 1 ≤ colors.length) (h2 : colors.length ≤ 255) :
    parse_adobe_act (create_act_file colors) =
      some (colors ++ List.replicate (256 - colors.length) (0, 0, 0)) := by
  have htake : colors.take 256 = colors := List.take_of_length_le (by omega)
  have hflat : create_act_file colors =
      (colors ++ List.replicate (256 - colors.length)
        ((0, 0, 0) : Nat × Nat × Nat)).flatMap actTriple ++ packBE16 colors.length := by
    rw [create_act_file, htake, if_pos (show 0 < colors.length ∧ colors.length < 256 by omega),
      List.flatMap_append, List.append_assoc]
  have hqlen : (colors ++ List.replicate (256 - colors.length)
      ((0, 0, 0) : Nat × Nat × Nat)).length = 256 := by
    simp only [List.length_append, List.length_replicate]
    omega
  have hlen : (create_act_file colors).length = 770 := by
    rw [hflat, List.length_append, flat3_length, hqlen]
    rfl
  have hread := readColors_flat
    (colors ++ List.replicate (256 - colors.length) ((0, 0, 0) : Nat × Nat × Nat))
    (packBE16 colors.length)
  rw [hqlen] at hread
  show readColors
    (if (create_act_file colors).length = 772 then
      256 * (create_act_file colors).getD 768 0 + (create_act_file colors).getD 769 0
    else (create_act_file colors).length / 3) (create_act_file colors) = _
  rw [hlen, if_neg (by omega), show (770 : Nat) / 3 = 256 from by norm_num, hflat]
  exact hread

/-! Range invariants of the readers. -/

theorem processLine_le (line : List Char) (c : Nat × Nat × Nat)
    (h : processLine line = some c) :
    c.1 ≤ 255 ∧ c.2.1 ≤ 255 ∧ c.2.2 ≤ 255 := by
  unfold processLine at h
  by_cases h1 : (pyStrip line).isEmpty = true
  · simp [h1] at h
  · simp only [eq_false_of_ne_true h1, Bool.false_eq_true, if_false] at h
    by_cases h2 : (pyStrip line).head? = some '#'
    · simp [h2] at h
    · simp only [if_neg h2] at h
      rcases ht : ((((splitWs (pyStrip line)).filter isDigitTok).map decVal).take 3) with
        _ | ⟨r, _ | ⟨g, _ | ⟨b, rest⟩⟩⟩ <;> rw [ht] at h
      · exact Option.noConfusion h
      · exact Option.noConfusion h
      · exact Option.noConfusion h
      · cases rest with
        | nil =>
          injection h with h'
          rw [← h']
          refine ⟨?_, ?_, ?_⟩ <;> simp [clamp]
        | cons d rest2 => exact Option.noConfusion h

theorem parse_gpl_bounds (content : List Char) :
    ∀ c ∈ parse_gpl_file content, c.1 ≤ 255 ∧ c.2.1 ≤ 255 ∧ c.2.2 ≤ 255 := by
  intro c hc
  obtain ⟨line, _, hline⟩ := List.mem_filterMap.mp hc
  exact processLine_le line c hline

/-! The writer output as one newline-terminated line per color. -/

theorem joinNl_flat (ls : List (List Char)) (h : ls ≠ []) :
    joinNl ls ++ ['\n'] = ls.flatMap (fun l => l ++ ['\n']) := by
  induction ls with
  | nil => exact absurd rfl h
  | cons l ls ih =>
    cases ls with
    | nil => simp [joinNl]
    | cons l2 ls2 =>
      show (l ++ '\n' :: joinNl (l2 :: ls2)) ++ ['\n'] = _
      rw [List.flatMap_cons, List.append_assoc, ← ih (by simp)]
      simp

/-! Claim theorems. -/

/-- C1, counterexample: the round-trip claimed by the spec fails on the code.
Writing the one-color palette `[(1,2,3)]` with `create_act_file` and reading
the bytes back with `parse_adobe_act` does not reconstruct `[(1,2,3)]`: the
writer emits 770 bytes, the reader's CS2 branch fires only at exactly 772
bytes, so the trailing count is ignored and all 256 slots are returned. -/
theorem act_roundtrip_claim_false :
    parse_adobe_act (create_act_file [(1, 2, 3)]) ≠ some [(1, 2, 3)] := by
  have h := act_write_read [(1, 2, 3)] (by decide) (by decide)
  intro hc
  rw [h] at hc
  injection hc with hc'
  have hlen := congrArg List.length hc'
  simp at hlen

/-- C1, amended: for a palette of 1 to 255 colors with channels in [0,255],
reading back the written ACT bytes yields the palette's colors followed by
the black padding — 256 colors in total, the original count not being
recovered, because the 770-byte output never triggers the reader's 772-byte
CS2 branch. -/
theorem act_roundtrip_amended (colors : List (Nat × Nat × Nat))
    (hlen1 : 1 ≤ colors.length) (hlen2 : colors.length ≤ 255)
    (hch : ∀ c ∈ colors, c.1 ≤ 255 ∧ c.2.1 ≤ 255 ∧ c.2.2 ≤ 255) :
    parse_adobe_act (create_act_file colors) =
      some (colors ++ List.replicate (256 - colors.length) (0, 0, 0)) :=
  act_write_read colors hlen1 hlen2

/-- C1, witness for the amended round-trip at the palette `[(9,8,7)]`. -/
theorem act_roundtrip_amended_witness :
    parse_adobe_act (create_act_file [(9, 8, 7)]) =
      some ([(9, 8, 7)] ++ List.replicate 255 (0, 0, 0)) :=
  act_roundtrip_amended [(9, 8, 7)] (by decide) (by decide) (by decide)

/-- C2, counterexample: the reader does not return "exactly that many colors"
for every input — a 772-byte file whose big-endian count field at offset 768
holds 258 needs 774 bytes of color data, and the reader fails (none, modelling
the raised `struct.error`) instead of returning 258 colors. -/
theorem act_count_claim_false :
    parse_adobe_act (List.replicate 768 (0 : Nat) ++ [1, 2, 0, 0]) = none ∧
    (List.replicate 768 (0 : Nat) ++ [1, 2, 0, 0]).length = 772 ∧
    256 * (List.replicate 768 (0 : Nat) ++ [1, 2, 0, 0]).getD 768 0 +
      (List.replicate 768 (0 : Nat) ++ [1, 2, 0, 0]).getD 769 0 = 258 := by
  refine ⟨by decide, by decide, by decide⟩

/-- C2, amended: the reader determines the count as the big-endian 16-bit
field at offset 768 for a 772-byte file and as size / 3 otherwise, and
whenever that count's 3·count bytes fit in the file (always true in the
non-772 branch) it returns exactly that many colors, read as consecutive
3-byte (R,G,B) groups from offset 0, in order. -/
theorem act_count_amended (data : List Nat)
    (h : (if data.length = 772 then 256 * data.getD 768 0 + data.getD 769 0
          else data.length / 3) * 3 ≤ data.length) :
    ∃ cs, parse_adobe_act data = some cs ∧
      cs.length = (if data.length = 772 then 256 * data.getD 768 0 + data.getD 769 0
        else data.length / 3) ∧
      ∀ i < cs.length, cs.getD i (0, 0, 0) =
        (data.getD (3 * i) 0, data.getD (3 * i + 1) 0, data.getD (3 * i + 2) 0) := by
  obtain ⟨cs, h1, h2, h3⟩ := readColors_spec
    (if data.length = 772 then 256 * data.getD 768 0 + data.getD 769 0
     else data.length / 3) data (by omega)
  exact ⟨cs, h1, h2, fun i hi => h3 i (by omega)⟩

/-- C2, witness: on the 7-byte file `[1,2,3,4,5,6,7]` the reader returns
7 / 3 = 2 colors. -/
theorem act_count_amended_witness :
    ((parse_adobe_act [1, 2, 3, 4, 5, 6, 7]).getD []).length = 2 := by
  obtain ⟨cs, h1, h2, _⟩ := act_count_amended [1, 2, 3, 4, 5, 6, 7] (by decide)
  rw [h1]
  simpa using h2

/-- C3: for any color list with channels in [0,255], the ACT writer's output
is the triples of the first min(len, 256) colors, then (0,0,0) padding up to
256 slots, then a big-endian 16-bit field holding the pre-clamp count exactly
when 1 ≤ len ≤ 255; the output size is 770 bytes in that window and 768 bytes
otherwise. -/
theorem create_act_spec (colors : List (Nat × Nat × Nat))
    (hch : ∀ c ∈ colors, c.1 ≤ 255 ∧ c.2.1 ≤ 255 ∧ c.2.2 ≤ 255) :
    create_act_file colors =
      (colors.take 256).flatMap actTriple ++
        (List.replicate (256 - min colors.length 256)
          ((0, 0, 0) : Nat × Nat × Nat)).flatMap actTriple ++
        (if 1 ≤ colors.length ∧ colors.length ≤ 255 then [0, colors.length] else []) ∧
      (create_act_file colors).length =
        if 1 ≤ colors.length ∧ colors.length ≤ 255 then 770 else 768 := by
  constructor
  · rw [create_act_file,
      show 256 - colors.length = 256 - min colors.length 256 from by omega]
    by_cases h : 0 < colors.length ∧ colors.length < 256
    · rw [if_pos h, if_pos (show 1 ≤ colors.length ∧ colors.length ≤ 255 from by omega),
        packBE16, Nat.div_eq_of_lt (by omega),
        Nat.mod_eq_of_lt (show colors.length < 256 from by omega)]
    · rw [if_neg h, if_neg (show ¬(1 ≤ colors.length ∧ colors.length ≤ 255) from by omega)]
  · rw [create_act_file]
    by_cases h : 0 < colors.length ∧ colors.length < 256
    · rw [if_pos h, if_pos (show 1 ≤ colors.length ∧ colors.length ≤ 255 from by omega)]
      simp only [List.length_append, flat3_length, List.length_take, List.length_replicate,
        packBE16, List.length_cons, List.length_nil]
      omega
    · rw [if_neg h, if_neg (show ¬(1 ≤ colors.length ∧ colors.length ≤ 255) from by omega)]
      simp only [List.length_append, flat3_length, List.length_take, List.length_replicate,
        List.length_nil]
      omega

/-- C3, witness: a 300-color palette produces exactly 768 bytes. -/
theorem create_act_spec_witness :
    (create_act_file (List.replicate 300 ((1 : Nat), 2, 3))).length = 768 := by
  have h := (create_act_spec (List.replicate 300 ((1 : Nat), 2, 3)) (by decide)).2
  simpa using h

/-- C4, counterexample: the GPL line `300 -10 128` does not parse to
`(255, 0, 128)` — `-10` is not a purely-digit token, so the line has only
two numeric tokens and is discarded. -/
theorem gpl_clamp_claim_false :
    parse_gpl_file ("300 -10 128\n".toList) ≠ [(255, 0, 128)] := by decide

/-- C4, amended: the GPL reader parses a file whose data line is
`300 -10 128` to the empty palette — the `-10` token fails `isdigit`, only
`300` and `128` remain, fewer than three numeric tokens, and the line is
silently discarded rather than clamped. -/
theorem gpl_clamp_amended :
    parse_gpl_file ("300 -10 128\n".toList) = [] := by decide

/-- C5: whenever the determined color count requires more bytes than the
file holds, the ACT reader fails (none, modelling the raised error) instead
of returning a shorter list. -/
theorem act_truncated_none (data : List Nat)
    (h : data.length <
      (if data.length = 772 then 256 * data.getD 768 0 + data.getD 769 0
       else data.length / 3) * 3) :
    parse_adobe_act data = none :=
  readColors_short _ data (by omega)

/-- C5, witness: a 772-byte file whose trailing count is 300 (needing 900
bytes) makes the reader fail. -/
theorem act_truncated_none_witness :
    parse_adobe_act (List.replicate 768 (0 : Nat) ++ [1, 44, 0, 0]) = none :=
  act_truncated_none _ (by decide)

/-- C6, counterexample: write–read–write idempotence fails for the name
`1 2 3` — the emitted header line `Name: 1 2 3` itself parses as a color, so
the second write contains one extra color line. -/
theorem gpl_idem_claim_false :
    return_gimp_palette
        (parse_gpl_file (return_gimp_palette [] "1 2 3".toList "0".toList))
        "1 2 3".toList "0".toList ≠
      return_gimp_palette [] "1 2 3".toList "0".toList := by decide

/-- C6, amended: for palettes with channels already in [0,255], write–read–
write reproduces the first write byte for byte, provided the rendered name
and columns are ASCII text containing neither a newline nor a carriage
return, and the `Name:` and `Columns:` header lines are not themselves
parseable as data lines.  The ASCII and carriage-return restrictions pin the
inputs on which this embedding provably coincides with the Python reader:
non-ASCII Unicode digits pass `str.isdigit`, and a carriage return is
translated to a line break by text-mode reading, both of which can turn a
header line into a harvested color. -/
theorem gpl_idem_amended (colors : List (Nat × Nat × Nat)) (name cols : List Char)
    (hcol : ∀ c ∈ colors, c.1 ≤ 255 ∧ c.2.1 ≤ 255 ∧ c.2.2 ≤ 255)
    (hna : ∀ c ∈ name, c.toNat ≤ 127) (hca : ∀ c ∈ cols, c.toNat ≤ 127)
    (hn : '\n' ∉ name) (hnr : '\r' ∉ name)
    (hc : '\n' ∉ cols) (hcr : '\r' ∉ cols)
    (h4 : processLine ("Name: ".toList ++ name) = none)
    (h5 : processLine ("Columns: ".toList ++ cols) = none) :
    return_gimp_palette (parse_gpl_file (return_gimp_palette colors name cols)) name cols =
      return_gimp_palette colors name cols := by
  rw [parse_write colors name cols hcol hn hc h4 h5]

/-- C6, witness for the amended idempotence at palette `[(10,20,30)]`,
name `Test`, columns `2`. -/
theorem gpl_idem_amended_witness :
    return_gimp_palette
        (parse_gpl_file (return_gimp_palette [(10, 20, 30)] "Test".toList "2".toList))
        "Test".toList "2".toList =
      return_gimp_palette [(10, 20, 30)] "Test".toList "2".toList :=
  gpl_idem_amended [(10, 20, 30)] "Test".toList "2".toList
    (by decide) (by decide) (by decide) (by decide) (by decide) (by decide) (by decide)
    (by decide) (by decide)

/-- C7: for a non-empty palette the GPL writer's output is exactly the
4-line header followed by one newline-terminated line per color in input
order, each line being the color line format with the `Untitled` label — in
particular no deduplication, sorting or reordering. -/
theorem gpl_writer_text (colors : List (Nat × Nat × Nat)) (name cols : List Char)
    (h : colors ≠ []) :
    return_gimp_palette colors name cols =
      "GIMP Palette\nName: ".toList ++ name ++ "\nColumns: ".toList ++ cols ++
        "\n#\n".toList ++ colors.flatMap (fun c => colorLine c ++ ['\n']) := by
  have hmap : colors.map colorLine ≠ [] := by simpa using h
  rw [return_gimp_palette, show "\n".toList = ['\n'] from rfl, List.append_assoc,
    joinNl_flat _ hmap, List.flatMap_map]

/-- C7, witness: the text written for the palette `[(1,2,3)]`. -/
theorem gpl_writer_text_witness :
    return_gimp_palette [(1, 2, 3)] "N".toList "0".toList =
      "GIMP Palette\nName: N\nColumns: 0\n#\n1 2 3\tUntitled\n".toList := by
  rw [gpl_writer_text [(1, 2, 3)] "N".toList "0".toList (by decide)]
  decide

/-- C8: every color produced by either reader has its three channels in
[0,255] (the GPL reader clamps; the ACT reader reads single bytes, which in
the byte model are ≤ 255); no partial color is ever produced. -/
theorem readers_bounds (content : List Char) (data : List Nat)
    (cs : List (Nat × Nat × Nat))
    (hdata : ∀ b ∈ data, b ≤ 255) (hact : parse_adobe_act data = some cs) :
    (∀ c ∈ parse_gpl_file content, c.1 ≤ 255 ∧ c.2.1 ≤ 255 ∧ c.2.2 ≤ 255) ∧
      ∀ c ∈ cs, c.1 ≤ 255 ∧ c.2.1 ≤ 255 ∧ c.2.2 ≤ 255 := by
  refine ⟨parse_gpl_bounds content, fun c hc => ?_⟩
  obtain ⟨h1, h2, h3⟩ := readColors_mem _ data cs hact c hc
  exact ⟨hdata _ h1, hdata _ h2, hdata _ h3⟩

/-- C8, witness: the color `(255,10,128)` read from the clamped GPL line
`300 10 128` is within bounds. -/
theorem readers_bounds_witness :
    (255 : Nat) ≤ 255 ∧ (10 : Nat) ≤ 255 ∧ (128 : Nat) ≤ 255 := by
  have h := readers_bounds ("300 10 128\n".toList) [1, 2, 3] [(1, 2, 3)]
    (by decide) (by decide)
  exact h.1 (255, 10, 128) (by decide)

/-- C9: the sample GPL file parses to exactly `[(10,20,30),(40,50,60)]` —
header lines, the `#` line, and the non-numeric line are discarded silently
while the data lines parse in file order. -/
theorem gpl_tolerance_example :
    parse_gpl_file
        ("GIMP Palette\nName: Test\nColumns: 2\n#\n10 20 30\tUntitled\nnotanumber\n40 50 60\n".toList) =
      [(10, 20, 30), (40, 50, 60)] := by decide

/-- C10: on the empty palette the GPL writer emits the 4-line header plus
one extra empty line — the text ends with `#` newline newline — because the
trailing newline of the format string is appended even with zero color
lines. -/
theorem gpl_writer_empty (name cols : List Char) :
    return_gimp_palette [] name cols =
      "GIMP Palette\nName: ".toList ++ name ++ "\nColumns: ".toList ++ cols ++
        "\n#\n\n".toList := by
  rw [return_gimp_palette, List.map_nil, show joinNl [] = [] from rfl, List.append_nil,
    List.append_assoc, show "\n#\n".toList ++ "\n".toList = "\n#\n\n".toList from rfl]

end GplAct
